import Mathlib

/-!
Shallow embedding of the data-consolidation pipeline of the
`clustering-kalimantan-food-prices` repository
(package `clustering_food_prices_kalimantan`, modules `data/cleaner.py`,
`data/loader.py`, `data/validator.py`, `data/consolidator.py`).

Modelling conventions:
* A spreadsheet cell is a `Cell`: a missing value (`NaN`/`NaT`), a string, or a
  numeric value.  Numeric cells are modelled as integers — the prices handled
  by this program are integer rupiah amounts; Python float formatting
  round-trips the same way integer formatting does, so nothing in the claims
  depends on fractional values.
* A long-format table (the canonical `{Commodities, City, Date, Price}` shape
  produced by `transform_to_long_format`) is a `List LongRow`.  The `City`
  column is always the string token attached by `clean_dataframe`, and the
  `Commodities` column holds spreadsheet commodity names, so both are carried
  as `String`; the `Date` column is still the raw period label (a string) at
  the point `handle_missing_values` runs.
* Stateful pandas code is modelled by explicit data flow; fallible operations
  return `Option`.  `pd.DataFrame.sort_values` uses an unstable sort in the
  source; the embedding uses a stable insertion sort, which agrees with any
  sort on everything the claims mention (fill results for distinct keys,
  multisets of rows, counts).
-/

inductive Cell where
  | na : Cell
  | str : String → Cell
  | num : Int → Cell
deriving DecidableEq, Repr, Inhabited

def Cell.isNa : Cell → Bool
  | .na => true
  | _ => false

structure LongRow where
  commodity : String
  city : String
  date : String
  price : Cell
deriving DecidableEq, Repr, Inhabited

/-- The configuration fields of `ConsolidatorConfig` (config/settings.py) used
by the data components. -/
structure ConsolidatorConfig where
  target_commodities : List String
  columns_to_drop : List String
  commodity_col : String
  original_commodity_col : String
  missing_value_indicators : List String
  min_expected_columns : Nat
  target_years : Option (List Int)
  target_cities : Option (List String)
  year_range_start : Option Int
  year_range_end : Option Int
deriving Repr

/-- Default values from `config/settings.py`. -/
def defaultConfig : ConsolidatorConfig where
  target_commodities := ["Beras", "Telur Ayam", "Daging Ayam", "Bawang Merah", "Bawang Putih"]
  columns_to_drop := ["No"]
  commodity_col := "Commodities"
  original_commodity_col := "Komoditas (Rp)"
  missing_value_indicators := ["-", "", "nan", "NaN", "null", "NULL"]
  min_expected_columns := 2
  target_years := none
  target_cities := some ["kab-sintang", "kota-pontianak", "kota-singkawang",
    "kota-banjarmasin", "kota-tanjung", "kota-palangkaraya", "kota-sampit",
    "kota-balikpapan", "kota-samarinda", "kota-tarakan"]
  year_range_start := some 2018
  year_range_end := some 2024

/-- A wide per-file table after `clean_dataframe`: the two identifier columns
`{Commodities, City}` plus one price cell per period column. -/
structure WideRow where
  commodity : String
  city : String
  values : List Cell
deriving DecidableEq, Repr, Inhabited

structure WideTable where
  dateCols : List String
  rows : List WideRow
deriving DecidableEq, Repr, Inhabited

/-- `DataCleaner.transform_to_long_format` (cleaner.py:45-65):
`df.melt(id_vars=[Commodities, City], var_name=Date, value_name=Price)`.
pandas `melt` unpivots column-major: for each non-identifier column (in column
order), one output row per input row, carrying the column label as `Date` and
the cell as `Price`. -/
def meltRow (p : Nat × String) (r : WideRow) : LongRow :=
  { commodity := r.commodity, city := r.city, date := p.2,
    price := r.values.getD p.1 Cell.na }

def transform_to_long_format (wt : WideTable) : List LongRow :=
  wt.dateCols.enum.flatMap (fun p => wt.rows.map (meltRow p))

/-- `DataCleaner.filter_commodities` (cleaner.py:67-78):
`df[df[Commodities].isin(target_commodities)].copy()`. -/
def filter_commodities (target_commodities : List String) (df : List LongRow) :
    List LongRow :=
  df.filter (fun r => target_commodities.contains r.commodity)

/-- C3: every output row of `filter_commodities` has its Commodity in the
target list, the output has at most as many rows as the input, and the output
is a sublist of the input (it is a fresh copy of a row subset; the embedding is
pure, so the input table is never mutated). -/
theorem filter_commodities_spec (targets : List String) (df : List LongRow) :
    (∀ r ∈ filter_commodities targets df, r.commodity ∈ targets) ∧
    (filter_commodities targets df).length ≤ df.length ∧
    (filter_commodities targets df).Sublist df := by
  refine ⟨?_, List.length_filter_le _ _, List.filter_sublist _⟩
  intro r hr
  have h := (List.mem_filter.mp hr).2
  simpa using h

/-- Index law for `flatMap` over blocks of constant length. -/
theorem flatMap_constLen_getD {α β : Type} (f : α → List β) (n : Nat)
    (hf : ∀ a, (f a).length = n) :
    ∀ (l : List α) (i j : Nat), ∀ hi : i < l.length, j < n →
      ∀ d : β, (l.flatMap f).getD (i * n + j) d = (f l[i]).getD j d := by
  intro l
  induction l with
  | nil => intro i j hi; exact absurd hi (by simp)
  | cons a l ih =>
    intro i j hi hj d
    rw [List.flatMap_cons]
    cases i with
    | zero =>
      have hjlen : j < (f a).length := by rw [hf a]; exact hj
      simpa using List.getD_append (f a) (l.flatMap f) d j hjlen
    | succ i =>
      have harith : (i + 1) * n + j = (f a).length + (i * n + j) := by
        rw [hf a]; ring
      rw [harith, List.getD_append_right _ _ _ _ (Nat.le_add_right _ _),
        Nat.add_sub_cancel_left]
      have hi' : i < l.length := by simpa using Nat.lt_of_succ_lt_succ hi
      rw [ih i j hi' hj d]
      simp

/-- C2: `transform_to_long_format` yields exactly (input row count) ×
(number of non-identifier columns) rows, and the output row for (original row
`j`, period column `i`) carries that row's Commodity and City identifiers, the
period label in Date, and the corresponding cell in Price. -/
theorem transform_to_long_format_melt_law (wt : WideTable) :
    (transform_to_long_format wt).length = wt.rows.length * wt.dateCols.length ∧
    (∀ i j, ∀ hi : i < wt.dateCols.length, ∀ hj : j < wt.rows.length,
      ((transform_to_long_format wt).getD (i * wt.rows.length + j) default).commodity
          = wt.rows[j].commodity ∧
        ((transform_to_long_format wt).getD (i * wt.rows.length + j) default).city
          = wt.rows[j].city ∧
        ((transform_to_long_format wt).getD (i * wt.rows.length + j) default).date
          = wt.dateCols[i] ∧
        ((transform_to_long_format wt).getD (i * wt.rows.length + j) default).price
          = wt.rows[j].values.getD i Cell.na) := by
  constructor
  · rw [transform_to_long_format, List.length_flatMap]
    have h : ∀ p ∈ wt.dateCols.enum,
        (wt.rows.map (meltRow p)).length = wt.rows.length := by
      intro p _; simp
    calc (wt.dateCols.enum.map (fun p => (wt.rows.map (meltRow p)).length)).sum
        = (wt.dateCols.enum.map (fun _ => wt.rows.length)).sum := by
          exact congrArg List.sum (List.map_congr_left h)
      _ = wt.rows.length * wt.dateCols.length := by
          simp [List.map_const, List.sum_replicate, Nat.mul_comm]
  · intro i j hi hj
    have henum : i < wt.dateCols.enum.length := by simpa using hi
    have hlaw := flatMap_constLen_getD (fun p => wt.rows.map (meltRow p))
      wt.rows.length (by intro a; simp) wt.dateCols.enum i j henum hj default
    rw [transform_to_long_format, hlaw, List.getElem_enum]
    rw [List.getD_eq_getElem _ _ (by simpa using hj), List.getElem_map]
    exact ⟨rfl, rfl, rfl, rfl⟩

/-- A concrete wide table used to instantiate `transform_to_long_format_melt_law`. -/
def wtEx : WideTable :=
  { dateCols := ["Jan", "Feb"],
    rows := [ { commodity := "Beras", city := "kota-pontianak",
                values := [Cell.num 5, Cell.num 7] },
              { commodity := "Telur Ayam", city := "kota-pontianak",
                values := [Cell.str "-", Cell.na] } ] }

theorem transform_to_long_format_melt_law_witness :
    (transform_to_long_format wtEx).length = wtEx.rows.length * wtEx.dateCols.length ∧
    ((transform_to_long_format wtEx).getD (1 * wtEx.rows.length + 0) default).date
      = "Feb" ∧
    ((transform_to_long_format wtEx).getD (1 * wtEx.rows.length + 0) default).price
      = Cell.num 7 := by
  have h := transform_to_long_format_melt_law wtEx
  have h2 := h.2 1 0 (by decide) (by decide)
  refine ⟨h.1, ?_, ?_⟩
  · rw [h2.2.2.1]; rfl
  · rw [h2.2.2.2]; rfl

structure RawTable where
  cols : List String
  rows : List (List Cell)
deriving DecidableEq, Repr, Inhabited

def msgEmpty (fname : String) : String :=
  "Empty DataFrame from " ++ fname

def msgMissingCol (col fname : String) : String :=
  "Missing '" ++ col ++ "' column in " ++ fname

def msgInsufficient (fname : String) : String :=
  "Insufficient columns in " ++ fname

/-- `DataValidator.validate_dataframe` (validator.py:17-40).  The three checks
are run unconditionally, each appending its message to `issues`; the result is
`(len(issues) == 0, issues)`.  `df.empty` is true iff either axis (rows or
columns) has length zero. -/
def validate_dataframe (config : ConsolidatorConfig) (df : RawTable)
    (fname : String) : Bool × List String :=
  let issues :=
    (if df.rows.isEmpty || df.cols.isEmpty then [msgEmpty fname] else []) ++
    (if !df.cols.contains config.original_commodity_col then
      [msgMissingCol config.original_commodity_col fname] else []) ++
    (if df.cols.length < config.min_expected_columns then
      [msgInsufficient fname] else [])
  (issues.isEmpty, issues)

theorem head?_of_data_append (a b : String) (h : a.data ≠ []) :
    (a ++ b).data.head? = a.data.head? := by
  rw [String.data_append]
  exact List.head?_append_of_ne_nil _ h

theorem msgEmpty_head (p : String) : (msgEmpty p).data.head? = some 'E' := by
  rw [msgEmpty, head?_of_data_append _ _ (by decide)]
  rfl

theorem msgMissingCol_head (c p : String) :
    (msgMissingCol c p).data.head? = some 'M' := by
  rw [msgMissingCol, head?_of_data_append _ _ ?hne]
  case hne =>
    rw [String.data_append, String.data_append]
    simp [show "Missing '".data ≠ [] from by decide]
  rw [head?_of_data_append _ _ ?hne2]
  case hne2 =>
    rw [String.data_append]
    simp [show "Missing '".data ≠ [] from by decide]
  rw [head?_of_data_append _ _ (by decide)]
  rfl

theorem msgInsufficient_head (p : String) :
    (msgInsufficient p).data.head? = some 'I' := by
  rw [msgInsufficient, head?_of_data_append _ _ (by decide)]
  rfl

theorem msgEmpty_ne_msgMissingCol (p c q : String) : msgEmpty p ≠ msgMissingCol c q := by
  intro h
  have h2 := congrArg (fun s => s.data.head?) h
  simp only [msgEmpty_head, msgMissingCol_head] at h2
  exact absurd h2 (by decide)

theorem msgEmpty_ne_msgInsufficient (p q : String) : msgEmpty p ≠ msgInsufficient q := by
  intro h
  have h2 := congrArg (fun s => s.data.head?) h
  simp only [msgEmpty_head, msgInsufficient_head] at h2
  exact absurd h2 (by decide)

theorem msgMissingCol_ne_msgInsufficient (c p q : String) :
    msgMissingCol c p ≠ msgInsufficient q := by
  intro h
  have h2 := congrArg (fun s => s.data.head?) h
  simp only [msgMissingCol_head, msgInsufficient_head] at h2
  exact absurd h2 (by decide)

/-- C9: `validate_dataframe` evaluates all three checks independently (each
failed check contributes exactly its own message to the issue list, regardless
of the other checks), and the returned flag is true iff the issue list is
empty; the input table is not touched (the embedding is a pure function). -/
theorem validate_dataframe_spec (config : ConsolidatorConfig) (df : RawTable)
    (fname : String) :
    ((validate_dataframe config df fname).1 = true ↔
      (validate_dataframe config df fname).2 = []) ∧
    (msgEmpty fname ∈ (validate_dataframe config df fname).2 ↔
      (df.rows.isEmpty || df.cols.isEmpty) = true) ∧
    (msgMissingCol config.original_commodity_col fname
        ∈ (validate_dataframe config df fname).2 ↔
      config.original_commodity_col ∉ df.cols) ∧
    (msgInsufficient fname ∈ (validate_dataframe config df fname).2 ↔
      df.cols.length < config.min_expected_columns) ∧
    (validate_dataframe config df fname).2.length =
      ((if (df.rows.isEmpty || df.cols.isEmpty) = true then 1 else 0) +
        (if config.original_commodity_col ∈ df.cols then 0 else 1) +
        (if df.cols.length < config.min_expected_columns then 1 else 0)) := by
  have hc : df.cols.contains config.original_commodity_col
      = decide (config.original_commodity_col ∈ df.cols) := by
    by_cases hmem : config.original_commodity_col ∈ df.cols <;> simp [hmem]
  refine ⟨?_, ?_, ?_, ?_, ?_⟩
  · simp [validate_dataframe, List.isEmpty_iff]
  · rw [validate_dataframe]
    by_cases h1 : (df.rows.isEmpty || df.cols.isEmpty) = true <;>
      by_cases h2 : config.original_commodity_col ∈ df.cols <;>
      by_cases h3 : df.cols.length < config.min_expected_columns <;>
      simp [h1, h2, h3, hc, msgEmpty_ne_msgMissingCol, msgEmpty_ne_msgInsufficient]
  · rw [validate_dataframe]
    by_cases h1 : (df.rows.isEmpty || df.cols.isEmpty) = true <;>
      by_cases h2 : config.original_commodity_col ∈ df.cols <;>
      by_cases h3 : df.cols.length < config.min_expected_columns <;>
      simp [h1, h2, h3, hc, Ne.symm (msgEmpty_ne_msgMissingCol _ _ _),
        msgMissingCol_ne_msgInsufficient]
  · rw [validate_dataframe]
    by_cases h1 : (df.rows.isEmpty || df.cols.isEmpty) = true <;>
      by_cases h2 : config.original_commodity_col ∈ df.cols <;>
      by_cases h3 : df.cols.length < config.min_expected_columns <;>
      simp [h1, h2, h3, hc, Ne.symm (msgEmpty_ne_msgInsufficient _ _),
        Ne.symm (msgMissingCol_ne_msgInsufficient _ _ _)]
  · rw [validate_dataframe]
    by_cases h1 : (df.rows.isEmpty || df.cols.isEmpty) = true <;>
      by_cases h2 : config.original_commodity_col ∈ df.cols <;>
      by_cases h3 : df.cols.length < config.min_expected_columns <;>
      simp [h1, h2, h3, hc]

def charToDigit? (c : Char) : Option Nat :=
  if c = '0' then some 0 else if c = '1' then some 1 else if c = '2' then some 2
  else if c = '3' then some 3 else if c = '4' then some 4 else if c = '5' then some 5
  else if c = '6' then some 6 else if c = '7' then some 7 else if c = '8' then some 8
  else if c = '9' then some 9 else none

/-- Value of a nonempty all-digit character list, most significant digit first;
`none` if empty or any character is not a decimal digit. -/
def decDigitsToNat? (cs : List Char) : Option Nat :=
  if cs.isEmpty then none
  else if cs.all (fun c => (charToDigit? c).isSome) then
    some (cs.foldl (fun a c => a * 10 + (charToDigit? c).getD 0) 0)
  else none

def pyIntList? : List Char → Option Int
  | [] => none
  | c :: cs =>
    if c = '-' then (decDigitsToNat? cs).map (fun n => -(n : Int))
    else if c = '+' then (decDigitsToNat? cs).map (fun n => (n : Int))
    else (decDigitsToNat? (c :: cs)).map (fun n => (n : Int))

/-- Python `int(s)` on the strings this program feeds it: an optional sign
followed by decimal digits (Python's extra leniency — surrounding whitespace,
digit-group underscores, non-ASCII digits — is outside the embedding's input
space and is not relied on by any claim). -/
def pyInt? (s : String) : Option Int :=
  pyIntList? s.data

/-- `DataLoader._should_process_year` (loader.py:89-119).  The file stem is
parsed with `int(...)`; a `ValueError` means "include by default".  Otherwise
an explicit `target_years` list wins; else, if either range bound `is not
None`, the code computes `start_year = year_range_start or float('-inf')` and
`end_year = year_range_end or float('inf')` — Python `or` replaces a *falsy*
bound, so a bound equal to `0` is also replaced by the infinity — and tests
`start_year <= year <= end_year`; else it includes unconditionally. -/
def should_process_year (config : ConsolidatorConfig) (stem : String) : Bool :=
  match pyInt? stem with
  | none => true
  | some year =>
    match config.target_years with
    | some ys => ys.contains year
    | none =>
      if config.year_range_start.isSome || config.year_range_end.isSome then
        (match config.year_range_start with
          | none => true
          | some s => if s = 0 then true else decide (s ≤ year)) &&
        (match config.year_range_end with
          | none => true
          | some e => if e = 0 then true else decide (year ≤ e))
      else true

/-- C4, as the claim words it: when the stem parses as year `y` and no explicit
list is configured but a range is, the file is included iff `start ≤ y ≤ end`,
each configured bound being enforced and only an *absent* bound open-ended. -/
def should_process_year_claimed (config : ConsolidatorConfig) (stem : String) :
    Bool :=
  match pyInt? stem with
  | none => true
  | some year =>
    match config.target_years with
    | some ys => ys.contains year
    | none =>
      if config.year_range_start.isSome || config.year_range_end.isSome then
        config.year_range_start.all (fun s => decide (s ≤ year)) &&
          config.year_range_end.all (fun e => decide (year ≤ e))
      else true

/-- C4 amended: as claimed, except that a configured bound equal to `0` is
treated like an absent bound (open-ended), because Python `or` discards falsy
values. -/
def should_process_year_amended (config : ConsolidatorConfig) (stem : String) :
    Bool :=
  match pyInt? stem with
  | none => true
  | some year =>
    match config.target_years with
    | some ys => ys.contains year
    | none =>
      if config.year_range_start.isSome || config.year_range_end.isSome then
        config.year_range_start.all (fun s => decide (s = 0) || decide (s ≤ year)) &&
          config.year_range_end.all (fun e => decide (e = 0) || decide (year ≤ e))
      else true

/-- Year-filter configuration with a configured range bound equal to 0. -/
def cfgZeroStart : ConsolidatorConfig :=
  { defaultConfig with
    target_years := none
    year_range_start := some 0
    year_range_end := none }

/-- Year-filter configuration with `target_years=[2023]`. -/
def cfg2023 : ConsolidatorConfig :=
  { defaultConfig with target_years := some [2023] }

/-- C4 counterexample: with a configured year-range start of `0` (a legal
`Optional[int]` value) and a file stem parsing to year `-1`, the code includes
the file, while the claimed predicate (`start ≤ y` enforced whenever a start
bound is configured) excludes it. -/
theorem should_process_year_counterexample :
    should_process_year cfgZeroStart "-1" = true ∧
    should_process_year_claimed cfgZeroStart "-1" = false := by
  decide

/-- C4 amended: the year predicate agrees everywhere with the claimed
predicate amended so that a bound equal to 0 is open-ended; in particular with
`target_years=[2023]` the stem "2022" is excluded and the unparseable stem
"notayear" is included. -/
theorem should_process_year_spec :
    (∀ config stem,
      should_process_year config stem = should_process_year_amended config stem) ∧
    should_process_year cfg2023 "2022" = false ∧
    should_process_year cfg2023 "notayear" = true := by
  refine ⟨?_, by decide, by decide⟩
  intro config stem
  rw [should_process_year, should_process_year_amended]
  cases pyInt? stem with
  | none => rfl
  | some y =>
    cases config.target_years with
    | some ys => rfl
    | none =>
      cases hs : config.year_range_start with
      | none =>
        cases he : config.year_range_end with
        | none => simp
        | some e => by_cases he0 : e = 0 <;> simp [he0]
      | some s =>
        cases he : config.year_range_end with
        | none => by_cases hs0 : s = 0 <;> simp [hs0]
        | some e =>
          by_cases hs0 : s = 0 <;> by_cases he0 : e = 0 <;>
            simp [hs0, he0, beq_iff_eq]

/-- One step of the `series.replace(indicator, np.nan)` loop
(cleaner.py:93-94): a cell equal to one of the configured sentinel strings
becomes missing; every other cell is untouched. -/
def replaceCell (indicators : List String) (c : Cell) : Cell :=
  match c with
  | .str s => if indicators.contains s then Cell.na else c
  | _ => c

def replaceIndicators (indicators : List String) (df : List LongRow) :
    List LongRow :=
  df.map (fun r => { r with price := replaceCell indicators r.price })

/-- A Price cell that pandas `isna` reports missing, or one of the configured
sentinel strings (which `handle_missing_values` first normalises to missing). -/
def missingOrSentinel (indicators : List String) (r : LongRow) : Bool :=
  r.price.isNa ||
    (match r.price with
      | .str s => indicators.contains s
      | _ => false)

/-- Code-point comparison of strings, as Python compares them. -/
def charListLt : List Char → List Char → Bool
  | [], [] => false
  | [], _ :: _ => true
  | _ :: _, [] => false
  | c :: cs, d :: ds =>
    if c.toNat < d.toNat then true
    else if d.toNat < c.toNat then false
    else charListLt cs ds

def strLt (a b : String) : Bool := charListLt a.data b.data

/-- Row comparison for `df.sort_values([City, Commodities, Date])`
(cleaner.py:97): lexicographic on the three string key columns. -/
def rowLe (a b : LongRow) : Bool :=
  if a.city = b.city then
    if a.commodity = b.commodity then !strLt b.date a.date
    else strLt a.commodity b.commodity
  else strLt a.city b.city

def insertSorted (r : LongRow) : List LongRow → List LongRow
  | [] => [r]
  | x :: xs => if rowLe r x then r :: x :: xs else x :: insertSorted r xs

/-- `df.sort_values([City, Commodities, Date])` as an insertion sort.  The
claims only use that the result is *some* permutation in which equal-key rows
behave uniformly, so the difference from pandas' unstable quicksort is
unobservable here. -/
def sort_values : List LongRow → List LongRow
  | [] => []
  | r :: rs => insertSorted r (sort_values rs)

def sameKey (a b : LongRow) : Bool :=
  a.city == b.city && a.commodity == b.commodity

/-- Last non-missing cell of a list (the value a forward fill carries),
missing if there is none. -/
def lastNonNa (cs : List Cell) : Cell :=
  ((cs.filter (fun c => !c.isNa)).getLast?).getD Cell.na

/-- First non-missing cell of a list (the value a backward fill takes),
missing if there is none. -/
def headNonNa (cs : List Cell) : Cell :=
  ((cs.filter (fun c => !c.isNa)).head?).getD Cell.na

/-- `df.groupby([City, Commodities])[Price].ffill()` (cleaner.py:100, first
call in the chain): each row's price becomes the last non-missing price among
the rows with the same (City, Commodity) key up to and including itself, in
row order; `prev` accumulates the already processed rows. -/
def groupFfillGo (prev : List LongRow) : List LongRow → List LongRow
  | [] => []
  | r :: rest =>
    { r with price :=
        lastNonNa (((prev ++ [r]).filter (fun x => sameKey x r)).map (·.price)) } ::
      groupFfillGo (prev ++ [r]) rest

def groupby_ffill (df : List LongRow) : List LongRow := groupFfillGo [] df

/-- `.bfill()` (cleaner.py:100, second call in the chain).  The grouped
`ffill` call returns a plain Series, so this backward fill runs over the whole
column, *not* per group: a missing price takes the first non-missing price
anywhere later in the sorted table. -/
def bfill : List LongRow → List LongRow
  | [] => []
  | r :: rest =>
    (if r.price.isNa then { r with price := headNonNa (rest.map (·.price)) }
      else r) :: bfill rest

/-- `DataCleaner.handle_missing_values` (cleaner.py:80-109): replace sentinel
strings by NaN, sort by (City, Commodities, Date), forward-fill per
(City, Commodities) group, then backward-fill the resulting column globally. -/
def handle_missing_values (indicators : List String) (df : List LongRow) :
    List LongRow :=
  bfill (groupby_ffill (sort_values (replaceIndicators indicators df)))

/-- Backward fill restricted to each (City, Commodities) group, as claim C1
describes the second fill. -/
def groupBfill : List LongRow → List LongRow
  | [] => []
  | r :: rest =>
    (if r.price.isNa then
      { r with price :=
          headNonNa ((rest.filter (fun x => sameKey x r)).map (·.price)) }
      else r) :: groupBfill rest

/-- `handle_missing_values` as claim C1 words it: both fills stay within the
(City, Commodities) group. -/
def handle_missing_values_claimed (indicators : List String)
    (df : List LongRow) : List LongRow :=
  groupBfill (groupby_ffill (sort_values (replaceIndicators indicators df)))

theorem insertSorted_perm (r : LongRow) (l : List LongRow) :
    (insertSorted r l).Perm (r :: l) := by
  induction l with
  | nil => exact List.Perm.refl _
  | cons x xs ih =>
    rw [insertSorted]
    cases hrx : rowLe r x with
    | true => simp
    | false =>
      simp only [Bool.false_eq_true, if_false]
      exact (ih.cons x).trans (List.Perm.swap r x xs)

theorem sort_values_perm (l : List LongRow) : (sort_values l).Perm l := by
  induction l with
  | nil => exact List.Perm.refl _
  | cons r rs ih =>
    rw [sort_values]
    exact (insertSorted_perm r (sort_values rs)).trans (ih.cons r)

/-- Two rows of one city: commodity "a" has only a missing price, commodity
"b" has a price.  The code's global backward fill copies commodity "b"'s price
into commodity "a"'s row. -/
def exCrossGroup : List LongRow :=
  [ { commodity := "a", city := "x", date := "1", price := Cell.na },
    { commodity := "b", city := "x", date := "1", price := Cell.num 5 } ]

/-- One row whose price is the sentinel string "-": pandas `isna` counts no
missing value before the call and one after it. -/
def exSentinel : List LongRow :=
  [ { commodity := "a", city := "x", date := "1", price := Cell.str "-" } ]

/-- C1 counterexample: (i) on `exCrossGroup` the code fills the commodity-"a"
row with commodity "b"'s price — the backward fill crosses group boundaries —
while the claimed per-group fill leaves it missing, so the two functions
differ; (ii) on `exSentinel`, counting missing values by pandas `isna`, the
missing count rises from 0 to 1, so "never increases" only holds when sentinel
strings are counted as missing. -/
theorem handle_missing_values_counterexample :
    (handle_missing_values defaultConfig.missing_value_indicators exCrossGroup).map
        (fun r => r.price) = [Cell.num 5, Cell.num 5] ∧
    (handle_missing_values_claimed defaultConfig.missing_value_indicators
        exCrossGroup).map (fun r => r.price) = [Cell.na, Cell.num 5] ∧
    handle_missing_values defaultConfig.missing_value_indicators exCrossGroup ≠
      handle_missing_values_claimed defaultConfig.missing_value_indicators
        exCrossGroup ∧
    exSentinel.countP (fun r => r.price.isNa) = 0 ∧
    (handle_missing_values defaultConfig.missing_value_indicators
      exSentinel).countP (fun r => r.price.isNa) = 1 := by
  decide

theorem lastNonNa_ne_na_of_mem {cs : List Cell} {c : Cell} (hc : c ∈ cs)
    (hna : ¬c.isNa = true) : ¬(lastNonNa cs).isNa = true := by
  rw [lastNonNa]
  have hmem : c ∈ cs.filter (fun c => !c.isNa) :=
    List.mem_filter.mpr ⟨hc, by simp [hna]⟩
  cases hlast : (cs.filter (fun c => !c.isNa)).getLast? with
  | none =>
    exact absurd (List.getLast?_eq_none_iff.mp hlast) (List.ne_nil_of_mem hmem)
  | some x =>
    have hx := (List.mem_filter.mp (List.mem_of_mem_getLast? hlast)).2
    simp only [Option.getD_some]
    simpa using hx

theorem lastNonNa_exists_nonNa {cs : List Cell}
    (h : ¬(lastNonNa cs).isNa = true) : ∃ c ∈ cs, ¬c.isNa = true := by
  by_contra hall
  push_neg at hall
  have hfil : cs.filter (fun c => !c.isNa) = [] := by
    rw [List.filter_eq_nil_iff]
    intro a ha
    simpa using hall a ha
  rw [lastNonNa, hfil] at h
  simp [Cell.isNa] at h

theorem headNonNa_ne_na_of_mem {cs : List Cell} {c : Cell} (hc : c ∈ cs)
    (hna : ¬c.isNa = true) : ¬(headNonNa cs).isNa = true := by
  rw [headNonNa]
  have hmem : c ∈ cs.filter (fun c => !c.isNa) :=
    List.mem_filter.mpr ⟨hc, by simp [hna]⟩
  cases hhd : (cs.filter (fun c => !c.isNa)).head? with
  | none =>
    exact absurd (List.head?_eq_none_iff.mp hhd) (List.ne_nil_of_mem hmem)
  | some x =>
    have hx := (List.mem_filter.mp (List.mem_of_mem_head? hhd)).2
    simp only [Option.getD_some]
    simpa using hx

theorem sameKey_self (r : LongRow) : sameKey r r = true := by
  simp [sameKey]

theorem price_update (r : LongRow) (v : Cell) :
    ({ r with price := v } : LongRow).price = v := rfl

theorem sameKey_of_eq {p x : LongRow} (hc : p.city = x.city)
    (hk : p.commodity = x.commodity) : sameKey p x = true := by
  simp [sameKey, hc, hk]

theorem groupFfillGo_map_key : ∀ (prev l : List LongRow),
    (groupFfillGo prev l).map (fun r => (r.city, r.commodity, r.date)) =
      l.map (fun r => (r.city, r.commodity, r.date)) := by
  intro prev l
  induction l generalizing prev with
  | nil => rfl
  | cons x rest ih => simp [groupFfillGo, ih]

theorem groupFfillGo_countP_le : ∀ (prev l : List LongRow),
    (groupFfillGo prev l).countP (fun r => r.price.isNa) ≤
      l.countP (fun r => r.price.isNa) := by
  intro prev l
  induction l generalizing prev with
  | nil => simp [groupFfillGo]
  | cons x rest ih =>
    rw [groupFfillGo, List.countP_cons, List.countP_cons]
    simp only [price_update]
    have hih := ih (prev ++ [x])
    by_cases hx : x.price.isNa = true
    · rw [if_pos hx]
      by_cases hhead : (lastNonNa (((prev ++ [x]).filter
          (fun z => sameKey z x)).map (·.price))).isNa = true
      · rw [if_pos hhead]; omega
      · rw [if_neg hhead]; omega
    · have hself : x ∈ prev ++ [x] := by simp
      have hfil : x ∈ (prev ++ [x]).filter (fun z => sameKey z x) :=
        List.mem_filter.mpr ⟨hself, sameKey_self x⟩
      have hpr : x.price ∈ ((prev ++ [x]).filter
          (fun z => sameKey z x)).map (·.price) := List.mem_map_of_mem _ hfil
      have hnon := lastNonNa_ne_na_of_mem hpr hx
      rw [if_neg hx, if_neg hnon]
      omega

theorem groupFfillGo_witness (c k : String) : ∀ (prev l : List LongRow),
    (∃ p ∈ prev, p.city = c ∧ p.commodity = k ∧ ¬p.price.isNa = true) →
    ∀ r ∈ groupFfillGo prev l, r.city = c → r.commodity = k →
      ¬r.price.isNa = true := by
  intro prev l
  induction l generalizing prev with
  | nil => intro _ r hr; exact absurd hr (by simp [groupFfillGo])
  | cons x rest ih =>
    rintro ⟨p, hp, hpc, hpk, hpna⟩ r hr hrc hrk
    rw [groupFfillGo] at hr
    rcases List.mem_cons.mp hr with hhead | htail
    · subst hhead
      have hxc : x.city = c := hrc
      have hxk : x.commodity = k := hrk
      have hkey : sameKey p x = true :=
        sameKey_of_eq (by rw [hpc, hxc]) (by rw [hpk, hxk])
      have hfil : p ∈ (prev ++ [x]).filter (fun z => sameKey z x) :=
        List.mem_filter.mpr ⟨by simp [hp], hkey⟩
      have hpr : p.price ∈ ((prev ++ [x]).filter
          (fun z => sameKey z x)).map (·.price) := List.mem_map_of_mem _ hfil
      exact lastNonNa_ne_na_of_mem hpr hpna
    · exact ih (prev ++ [x]) ⟨p, by simp [hp], hpc, hpk, hpna⟩ r htail hrc hrk

theorem groupFfillGo_exists (c k : String) : ∀ (prev l : List LongRow),
    (∃ w ∈ l, w.city = c ∧ w.commodity = k ∧ ¬w.price.isNa = true) →
    ∃ rf ∈ groupFfillGo prev l,
      rf.city = c ∧ rf.commodity = k ∧ ¬rf.price.isNa = true := by
  intro prev l
  induction l generalizing prev with
  | nil => rintro ⟨w, hw, -⟩; exact absurd hw (by simp)
  | cons x rest ih =>
    rintro ⟨w, hw, hwc, hwk, hwna⟩
    rcases List.mem_cons.mp hw with hwx | hwrest
    · subst hwx
      refine ⟨{ w with price := lastNonNa (((prev ++ [w]).filter
          (fun z => sameKey z w)).map (·.price)) }, by simp [groupFfillGo], hwc, hwk, ?_⟩
      have hfil : w ∈ (prev ++ [w]).filter (fun z => sameKey z w) :=
        List.mem_filter.mpr ⟨by simp, sameKey_self w⟩
      have hpr : w.price ∈ ((prev ++ [w]).filter
          (fun z => sameKey z w)).map (·.price) := List.mem_map_of_mem _ hfil
      exact lastNonNa_ne_na_of_mem hpr hwna
    · obtain ⟨rf, hrf, h⟩ := ih (prev ++ [x]) ⟨w, hwrest, hwc, hwk, hwna⟩
      exact ⟨rf, by simp [groupFfillGo, hrf], h⟩

/-- Once a (City, Commodity) group has produced a non-missing forward-filled
value, every later row of the same group is non-missing too. -/
def fillRel (x y : LongRow) : Prop :=
  x.city = y.city → x.commodity = y.commodity → ¬x.price.isNa = true →
    ¬y.price.isNa = true

theorem groupFfillGo_pairwise : ∀ (prev l : List LongRow),
    (groupFfillGo prev l).Pairwise fillRel := by
  intro prev l
  induction l generalizing prev with
  | nil => exact List.Pairwise.nil
  | cons x rest ih =>
    rw [groupFfillGo]
    refine List.Pairwise.cons ?_ (ih (prev ++ [x]))
    intro y hy hcity hcomm hnonNa
    obtain ⟨cl, hcl, hclna⟩ := lastNonNa_exists_nonNa hnonNa
    obtain ⟨p, hpfil, hpc⟩ := List.mem_map.mp hcl
    have hpmem : p ∈ prev ++ [x] := (List.mem_filter.mp hpfil).1
    have hpkey : sameKey p x = true := (List.mem_filter.mp hpfil).2
    have hpair : p.city = x.city ∧ p.commodity = x.commodity := by
      simpa [sameKey] using hpkey
    have hpcity : p.city = x.city := hpair.1
    have hpcomm : p.commodity = x.commodity := hpair.2
    have hpna : ¬p.price.isNa = true := by rw [hpc]; exact hclna
    have hycity : y.city = x.city := by
      have : x.city = y.city := hcity
      exact this.symm
    have hycomm : y.commodity = x.commodity := hcomm.symm
    exact groupFfillGo_witness x.city x.commodity (prev ++ [x]) rest
      ⟨p, by simp [hpmem], hpcity, hpcomm, hpna⟩ y hy hycity hycomm

theorem bfill_map_key : ∀ l : List LongRow,
    (bfill l).map (fun r => (r.city, r.commodity, r.date)) =
      l.map (fun r => (r.city, r.commodity, r.date)) := by
  intro l
  induction l with
  | nil => rfl
  | cons x rest ih =>
    rw [bfill]
    by_cases hx : x.price.isNa = true
    · rw [if_pos hx]; simp [ih]
    · rw [if_neg hx]; simp [ih]

theorem bfill_countP_le : ∀ l : List LongRow,
    (bfill l).countP (fun r => r.price.isNa) ≤
      l.countP (fun r => r.price.isNa) := by
  intro l
  induction l with
  | nil => simp [bfill]
  | cons x rest ih =>
    rw [bfill, List.countP_cons, List.countP_cons]
    by_cases hx : x.price.isNa = true
    · rw [if_pos hx, if_pos hx]
      simp only [price_update]
      by_cases hfill : (headNonNa (rest.map (·.price))).isNa = true
      · rw [if_pos hfill]; omega
      · rw [if_neg hfill]; omega
    · simp only [if_neg hx]
      omega

theorem bfill_origin : ∀ (l : List LongRow), ∀ r ∈ bfill l,
    ∃ y ∈ l, r.city = y.city ∧ r.commodity = y.commodity ∧
      (r.price.isNa = true → y.price.isNa = true) := by
  intro l
  induction l with
  | nil => intro r hr; exact absurd hr (by simp [bfill])
  | cons x rest ih =>
    intro r hr
    rw [bfill] at hr
    rcases List.mem_cons.mp hr with hhead | htail
    · by_cases hx : x.price.isNa = true
      · rw [if_pos hx] at hhead
        exact ⟨x, by simp, by rw [hhead], by rw [hhead], fun _ => hx⟩
      · rw [if_neg hx] at hhead
        exact ⟨x, by simp, by rw [hhead], by rw [hhead],
          fun h => absurd (hhead ▸ h) hx⟩
    · obtain ⟨y, hy, h⟩ := ih r htail
      exact ⟨y, by simp [hy], h⟩

theorem bfill_witness (c k : String) : ∀ l : List LongRow,
    l.Pairwise fillRel →
    (∃ rf ∈ l, rf.city = c ∧ rf.commodity = k ∧ ¬rf.price.isNa = true) →
    ∀ r ∈ bfill l, r.city = c → r.commodity = k → ¬r.price.isNa = true := by
  intro l
  induction l with
  | nil => rintro _ ⟨rf, hrf, -⟩; exact absurd hrf (by simp)
  | cons x rest ih =>
    rintro hpw ⟨rf, hrf, hrfc, hrfk, hrfna⟩ r hr hrc hrk
    have hrel : ∀ y ∈ rest, fillRel x y := (List.pairwise_cons.mp hpw).1
    have hpwrest : rest.Pairwise fillRel := (List.pairwise_cons.mp hpw).2
    rw [bfill] at hr
    rcases List.mem_cons.mp hr with hhead | htail
    · by_cases hx : x.price.isNa = true
      · rw [if_pos hx] at hhead
        have hrfrest : rf ∈ rest := by
          rcases List.mem_cons.mp hrf with hfx | hfr
          · exact absurd (hfx ▸ hrfna) (by simp [hx])
          · exact hfr
        have hpr : rf.price ∈ rest.map (·.price) := List.mem_map_of_mem _ hrfrest
        have := headNonNa_ne_na_of_mem hpr hrfna
        rw [hhead, price_update]
        exact this
      · rw [if_neg hx] at hhead
        rw [hhead]; exact hx
    · rcases List.mem_cons.mp hrf with hfx | hfrest
      · obtain ⟨y, hy, hyc, hyk, hyna⟩ := bfill_origin rest r htail
        intro hna
        have hxy := hrel y hy
        have hxc : x.city = y.city := by
          rw [← hfx, hrfc, ← hrc]; exact hyc
        have hxk : x.commodity = y.commodity := by
          rw [← hfx, hrfk, ← hrk]; exact hyk
        have hxna : ¬x.price.isNa = true := hfx ▸ hrfna
        exact (hxy hxc hxk hxna) (hyna hna)
      · exact ih hpwrest ⟨rf, hfrest, hrfc, hrfk, hrfna⟩ r htail hrc hrk

theorem replaceIndicators_countP (indicators : List String) (df : List LongRow) :
    (replaceIndicators indicators df).countP (fun r => r.price.isNa) =
      df.countP (missingOrSentinel indicators) := by
  rw [replaceIndicators, List.countP_map]
  apply List.countP_congr
  intro r _
  cases hc : r.price with
  | na => simp [replaceCell, missingOrSentinel, Cell.isNa, hc]
  | str s =>
    by_cases hs : s ∈ indicators <;>
      simp [replaceCell, missingOrSentinel, Cell.isNa, hc, hs, Function.comp]
  | num n => simp [replaceCell, missingOrSentinel, Cell.isNa, hc, Function.comp]

/-- C1 amended: `handle_missing_values` normalises sentinel strings to
missing, sorts by (City, Commodities, Date), forward-fills Price per
(City, Commodities) group, then backward-fills the whole column — the backward
fill is global, so a price missing after the grouped forward fill takes the
nearest later non-missing value in the sorted table even from another group.
Consequently: (i) in every group that has at least one non-missing value
(after sentinel normalisation), no missing value remains; (ii) the total
missing count — counting the configured sentinel strings of the input as
missing — never increases. -/
theorem handle_missing_values_spec (indicators : List String)
    (df : List LongRow) (c k : String) :
    ((∃ r ∈ df, r.city = c ∧ r.commodity = k ∧
        ¬(replaceCell indicators r.price).isNa = true) →
      ∀ r ∈ handle_missing_values indicators df,
        r.city = c → r.commodity = k → ¬r.price.isNa = true) ∧
    (handle_missing_values indicators df).countP (fun r => r.price.isNa) ≤
      df.countP (missingOrSentinel indicators) := by
  constructor
  · rintro ⟨r, hr, hc, hk, hna⟩ r2 hr2 hc2 hk2
    have hmem : ({ r with price := replaceCell indicators r.price } : LongRow) ∈
        sort_values (replaceIndicators indicators df) :=
      (sort_values_perm _).mem_iff.mpr
        (List.mem_map_of_mem _ hr)
    have hx : ∃ w ∈ sort_values (replaceIndicators indicators df),
        w.city = c ∧ w.commodity = k ∧ ¬w.price.isNa = true :=
      ⟨_, hmem, hc, hk, hna⟩
    have hF := groupFfillGo_exists c k [] _ hx
    exact bfill_witness c k _ (groupFfillGo_pairwise [] _) hF r2 hr2 hc2 hk2
  · calc (handle_missing_values indicators df).countP (fun r => r.price.isNa)
        ≤ (groupby_ffill (sort_values (replaceIndicators indicators
            df))).countP (fun r => r.price.isNa) := bfill_countP_le _
      _ ≤ (sort_values (replaceIndicators indicators df)).countP
            (fun r => r.price.isNa) := groupFfillGo_countP_le [] _
      _ = (replaceIndicators indicators df).countP (fun r => r.price.isNa) :=
          (sort_values_perm _).countP_eq _
      _ = df.countP (missingOrSentinel indicators) :=
          replaceIndicators_countP indicators df

/-- C10: `handle_missing_values` keeps the row count and touches only the
Price column — the multiset of (City, Commodity, Date) triples is exactly that
of the input (rows are only reordered by the sort). -/
theorem handle_missing_values_frame (indicators : List String)
    (df : List LongRow) :
    (handle_missing_values indicators df).length = df.length ∧
    ((handle_missing_values indicators df).map
        (fun r => (r.city, r.commodity, r.date))).Perm
      (df.map (fun r => (r.city, r.commodity, r.date))) := by
  have h1 : (handle_missing_values indicators df).map
      (fun r => (r.city, r.commodity, r.date)) =
      (sort_values (replaceIndicators indicators df)).map
        (fun r => (r.city, r.commodity, r.date)) := by
    rw [handle_missing_values, bfill_map_key, groupby_ffill, groupFfillGo_map_key]
  have h2 : ((sort_values (replaceIndicators indicators df)).map
      (fun r => (r.city, r.commodity, r.date))).Perm
      ((replaceIndicators indicators df).map
        (fun r => (r.city, r.commodity, r.date))) :=
    (sort_values_perm _).map _
  have h3 : (replaceIndicators indicators df).map
      (fun r => (r.city, r.commodity, r.date)) =
      df.map (fun r => (r.city, r.commodity, r.date)) := by
    rw [replaceIndicators, List.map_map]
    exact List.map_congr_left (fun r _ => rfl)
  have hperm : ((handle_missing_values indicators df).map
      (fun r => (r.city, r.commodity, r.date))).Perm
      (df.map (fun r => (r.city, r.commodity, r.date))) := by
    rw [h1, ← h3]; exact h2
  refine ⟨?_, hperm⟩
  have hlen := hperm.length_eq
  simpa using hlen

theorem handle_missing_values_spec_witness :
    ¬((handle_missing_values defaultConfig.missing_value_indicators
        exCrossGroup).getD 1 default).price.isNa = true ∧
    (handle_missing_values defaultConfig.missing_value_indicators
        exCrossGroup).countP (fun r => r.price.isNa) ≤
      exCrossGroup.countP
        (missingOrSentinel defaultConfig.missing_value_indicators) := by
  have h := handle_missing_values_spec defaultConfig.missing_value_indicators
    exCrossGroup "x" "b"
  refine ⟨?_, h.2⟩
  exact h.1
    ⟨{ commodity := "b", city := "x", date := "1", price := Cell.num 5 },
      by decide, rfl, rfl, by decide⟩
    _ (by decide) (by decide) (by decide)

def digitToChar : Nat → Char
  | 0 => '0' | 1 => '1' | 2 => '2' | 3 => '3' | 4 => '4'
  | 5 => '5' | 6 => '6' | 7 => '7' | 8 => '8' | 9 => '9'
  | _ => '*'

/-- Python `str` of a natural number: its decimal digits, most significant
first. -/
def natToDecStr (n : Nat) : String :=
  if n = 0 then "0"
  else String.mk ((Nat.digits 10 n).reverse.map digitToChar)

/-- Python `str` of an integer. -/
def intToDecStr (n : Int) : String :=
  if n < 0 then "-" ++ natToDecStr (-n).toNat else natToDecStr n.toNat

/-- `astype(str)` on one Price cell: numbers print as decimal literals,
missing values print as "nan" (which then fails numeric parsing and coerces
back to missing). -/
def cellToStr : Cell → String
  | .na => "nan"
  | .str s => s
  | .num n => intToDecStr n

/-- `.str.replace(',', '', regex=False)` (cleaner.py:161): remove every
comma. -/
def removeCommas (s : String) : String :=
  String.mk (s.data.filter (fun c => c != ','))

/-- `DataCleaner._clean_and_convert_price` on one cell (cleaner.py:142-184):
stringify, strip commas, then `pd.to_numeric(·, errors='coerce')` — restricted
to integer numerals, the numeric shape of this price data. -/
def cleanPriceCell (c : Cell) : Cell :=
  match pyInt? (removeCommas (cellToStr c)) with
  | some n => Cell.num n
  | none => Cell.na

def clean_and_convert_price (prices : List Cell) : List Cell :=
  prices.map cleanPriceCell

theorem charToDigit?_digitToChar (d : Nat) (hd : d < 10) :
    charToDigit? (digitToChar d) = some d := by
  interval_cases d <;> rfl

theorem charToDigit?_isSome_not_special {c : Char}
    (h : (charToDigit? c).isSome = true) : c ≠ '-' ∧ c ≠ '+' ∧ c ≠ ',' := by
  refine ⟨?_, ?_, ?_⟩ <;> rintro rfl <;> exact absurd h (by decide)

theorem foldl_digit_chars (L : List Nat) (hL : ∀ d ∈ L, d < 10) :
    ∀ acc : Nat, (L.reverse.map digitToChar).foldl
        (fun a c => a * 10 + (charToDigit? c).getD 0) acc
      = acc * 10 ^ L.length + Nat.ofDigits 10 L := by
  induction L with
  | nil => intro acc; simp
  | cons d L ih =>
    intro acc
    have hd : d < 10 := hL d (by simp)
    have hL' : ∀ x ∈ L, x < 10 := fun x hx => hL x (by simp [hx])
    rw [List.reverse_cons, List.map_append, List.foldl_append]
    simp only [List.map_cons, List.map_nil, List.foldl_cons, List.foldl_nil]
    rw [ih hL', charToDigit?_digitToChar d hd]
    simp only [Option.getD_some, Nat.ofDigits_cons, List.length_cons]
    ring

theorem decDigits_digits (n : Nat) (hn : n ≠ 0) :
    decDigitsToNat? ((Nat.digits 10 n).reverse.map digitToChar) = some n := by
  have hne : Nat.digits 10 n ≠ [] := Nat.digits_ne_nil_iff_ne_zero.mpr hn
  have hlt : ∀ d ∈ Nat.digits 10 n, d < 10 :=
    fun d hd => Nat.digits_lt_base (by norm_num) hd
  rw [decDigitsToNat?]
  rw [if_neg (by simp [List.isEmpty_iff, hne])]
  rw [if_pos ?hall]
  case hall =>
    rw [List.all_eq_true]
    intro c hc
    obtain ⟨d, hd, rfl⟩ := List.mem_map.mp hc
    rw [charToDigit?_digitToChar d (hlt d (List.mem_reverse.mp hd))]
    rfl
  rw [foldl_digit_chars _ hlt 0, Nat.ofDigits_digits]
  simp

theorem decDigits_natToDecStr (n : Nat) :
    decDigitsToNat? (natToDecStr n).data = some n := by
  by_cases hn : n = 0
  · subst hn; decide
  · rw [natToDecStr, if_neg hn]
    exact decDigits_digits n hn

theorem natToDecStr_chars (n : Nat) :
    ∀ c ∈ (natToDecStr n).data, (charToDigit? c).isSome = true := by
  by_cases hn : n = 0
  · subst hn; decide
  · rw [natToDecStr, if_neg hn]
    intro c hc
    obtain ⟨d, hd, rfl⟩ := List.mem_map.mp hc
    rw [charToDigit?_digitToChar d
      (Nat.digits_lt_base (by norm_num) (List.mem_reverse.mp hd))]
    rfl

theorem natToDecStr_ne_nil (n : Nat) : (natToDecStr n).data ≠ [] := by
  by_cases hn : n = 0
  · subst hn; decide
  · rw [natToDecStr, if_neg hn]
    simp [Nat.digits_ne_nil_iff_ne_zero.mpr hn]

theorem pyInt?_natToDecStr (m : Nat) : pyInt? (natToDecStr m) = some (m : Int) := by
  rw [pyInt?]
  cases hdata : (natToDecStr m).data with
  | nil => exact absurd hdata (natToDecStr_ne_nil m)
  | cons c cs =>
    have hcdig : (charToDigit? c).isSome = true :=
      natToDecStr_chars m c (by rw [hdata]; simp)
    obtain ⟨h1, h2, -⟩ := charToDigit?_isSome_not_special hcdig
    rw [pyIntList?, if_neg h1, if_neg h2, ← hdata, decDigits_natToDecStr]
    rfl

theorem pyInt?_intToDecStr (n : Int) : pyInt? (intToDecStr n) = some n := by
  cases n with
  | ofNat m =>
    rw [intToDecStr, if_neg (by simp)]
    have hto : (Int.ofNat m).toNat = m := rfl
    rw [hto]
    exact pyInt?_natToDecStr m
  | negSucc m =>
    rw [intToDecStr, if_pos (by simp [Int.negSucc_lt_zero])]
    have hto : (-Int.negSucc m).toNat = m + 1 := by
      rw [Int.neg_negSucc]; rfl
    rw [hto]
    have hdata : ("-" ++ natToDecStr (m + 1)).data
        = '-' :: (natToDecStr (m + 1)).data := by
      rw [String.data_append]; rfl
    rw [pyInt?, hdata, pyIntList?, if_pos rfl, decDigits_natToDecStr]
    simp [Int.negSucc_eq]

theorem removeCommas_intToDecStr (n : Int) :
    removeCommas (intToDecStr n) = intToDecStr n := by
  rw [removeCommas]
  have hfil : (intToDecStr n).data.filter (fun c => c != ',') =
      (intToDecStr n).data := by
    rw [List.filter_eq_self]
    intro c hc
    rw [intToDecStr] at hc
    by_cases hneg : n < 0
    · rw [if_pos hneg] at hc
      rw [show ("-" ++ natToDecStr (-n).toNat).data
          = '-' :: (natToDecStr (-n).toNat).data from by rw [String.data_append]; rfl]
          at hc
      rcases List.mem_cons.mp hc with rfl | hc2
      · decide
      · have := (charToDigit?_isSome_not_special (natToDecStr_chars _ c hc2)).2.2
        simpa using this
    · rw [if_neg hneg] at hc
      have := (charToDigit?_isSome_not_special (natToDecStr_chars _ c hc)).2.2
      simpa using this
  rw [hfil]

theorem cleanPriceCell_num (n : Int) : cleanPriceCell (Cell.num n) = Cell.num n := by
  rw [cleanPriceCell]
  rw [show cellToStr (Cell.num n) = intToDecStr n from rfl]
  rw [removeCommas_intToDecStr, pyInt?_intToDecStr]

/-- C8: price conversion is the identity on already-numeric series (numeric
and missing cells reproduce themselves, so applying the conversion to its own
output changes nothing), the comma-separated string "1,250,000" converts to
the number 1250000, and every output cell is numeric or missing — unparseable
cells coerce to missing instead of raising. -/
theorem clean_and_convert_price_spec :
    (∀ prices : List Cell,
      (∀ c ∈ prices, c = Cell.na ∨ ∃ n, c = Cell.num n) →
      clean_and_convert_price prices = prices) ∧
    clean_and_convert_price [Cell.str "1,250,000"] = [Cell.num 1250000] ∧
    (∀ prices : List Cell,
      clean_and_convert_price (clean_and_convert_price prices) =
        clean_and_convert_price prices) ∧
    (∀ prices : List Cell, ∀ c ∈ clean_and_convert_price prices,
      c = Cell.na ∨ ∃ n, c = Cell.num n) := by
  have hcell : ∀ c : Cell, (c = Cell.na ∨ ∃ n, c = Cell.num n) →
      cleanPriceCell c = c := by
    rintro c (rfl | ⟨n, rfl⟩)
    · decide
    · exact cleanPriceCell_num n
  have hid : ∀ prices : List Cell,
      (∀ c ∈ prices, c = Cell.na ∨ ∃ n, c = Cell.num n) →
      clean_and_convert_price prices = prices := by
    intro prices hnum
    rw [clean_and_convert_price]
    induction prices with
    | nil => rfl
    | cons c rest ih =>
      rw [List.map_cons, hcell c (hnum c (by simp))]
      rw [ih (fun x hx => hnum x (by simp [hx]))]
  have hout : ∀ prices : List Cell, ∀ c ∈ clean_and_convert_price prices,
      c = Cell.na ∨ ∃ n, c = Cell.num n := by
    intro prices c hc
    obtain ⟨x, hx, rfl⟩ := List.mem_map.mp hc
    rw [cleanPriceCell]
    cases hp : pyInt? (removeCommas (cellToStr x)) with
    | none => exact Or.inl rfl
    | some n => exact Or.inr ⟨n, rfl⟩
  refine ⟨hid, by decide, ?_, hout⟩
  intro prices
  exact hid _ (hout prices)

theorem clean_and_convert_price_spec_witness :
    clean_and_convert_price [Cell.num 3, Cell.na] = [Cell.num 3, Cell.na] :=
  clean_and_convert_price_spec.1 [Cell.num 3, Cell.na] (by
    intro c hc
    rcases List.mem_cons.mp hc with rfl | hc2
    · exact Or.inr ⟨3, rfl⟩
    · rcases List.mem_cons.mp hc2 with rfl | hc3
      · exact Or.inl rfl
      · exact absurd hc3 (by simp))

/-- Whitespace as matched by the `\s+` that CPython's strptime machinery
substitutes for literal whitespace in a format string (ASCII range; this data
only contains plain spaces). -/
def isStrptimeWs (c : Char) : Bool :=
  c = ' ' || c = '\t' || c = '\n' || c = '\r' || c = '\x0b' || c = '\x0c'

/-- The `%d` / `%m` field regex of CPython strptime
(`3[01]|[12]\d|0[1-9]|[1-9]` for days, `1[0-2]|0[1-9]|[1-9]` for months):
consume two digits when they form a value in `1..mx`, else one nonzero digit;
backtracking never helps here because the next format token is never a
digit. -/
def parse2 (mx : Nat) : List Char → Option (Nat × List Char)
  | [] => none
  | [c1] =>
    match charToDigit? c1 with
    | some d1 => if 1 ≤ d1 then some (d1, []) else none
    | none => none
  | c1 :: c2 :: rest =>
    match charToDigit? c1, charToDigit? c2 with
    | some d1, some d2 =>
      let v := d1 * 10 + d2
      if 1 ≤ v ∧ v ≤ mx then some (v, rest)
      else if 1 ≤ d1 then some (d1, c2 :: rest) else none
    | some d1, none => if 1 ≤ d1 then some (d1, c2 :: rest) else none
    | none, _ => none

def expectSlash : List Char → Option (List Char)
  | [] => none
  | c :: cs => if c = '/' then some cs else none

def dropWs : List Char → List Char
  | [] => []
  | c :: cs => if isStrptimeWs c then dropWs cs else c :: cs

/-- `\s+`: at least one whitespace character, then greedily all following
whitespace. -/
def eatWs1 : List Char → Option (List Char)
  | [] => none
  | c :: cs => if isStrptimeWs c then some (dropWs cs) else none

/-- `%Y`: exactly four digits. -/
def eat4Digits : List Char → Option (Nat × List Char)
  | c1 :: c2 :: c3 :: c4 :: rest =>
    match charToDigit? c1, charToDigit? c2, charToDigit? c3, charToDigit? c4 with
    | some d1, some d2, some d3, some d4 =>
      some (((d1 * 10 + d2) * 10 + d3) * 10 + d4, rest)
    | _, _, _, _ => none
  | _ => none

def isLeapYear (y : Nat) : Bool :=
  y % 4 == 0 && (y % 100 != 0 || y % 400 == 0)

def daysInMonth (y m : Nat) : Nat :=
  if m == 2 then (if isLeapYear y then 29 else 28)
  else if m == 4 || m == 6 || m == 9 || m == 11 then 30
  else 31

/-- Midnight dates representable as a nanosecond `pd.Timestamp`
(1677-09-22 through 2262-04-11); out-of-bounds parses coerce to NaT. -/
def inTimestampRange (y m d : Nat) : Bool :=
  (1677 < y || (y == 1677 && (9 < m || (m == 9 && 22 ≤ d)))) &&
    (y < 2262 || (y == 2262 && (m < 4 || (m == 4 && d ≤ 11))))

/-- `pd.to_datetime(·, format='%d/ %m/ %Y', errors='coerce')` on one string
(cleaner.py:202-206): the fixed format is day, literal '/', whitespace,
month, literal '/', whitespace, four-digit year, end of string; then the
(year, month, day) triple must be a real calendar date in Timestamp range.
Any failure yields `none` (NaT), never an error. -/
def parseFixedDate (s : String) : Option (Nat × Nat × Nat) :=
  (parse2 31 s.data).bind (fun pd =>
    (expectSlash pd.2).bind (fun r2 =>
      (eatWs1 r2).bind (fun r3 =>
        (parse2 12 r3).bind (fun pm =>
          (expectSlash pm.2).bind (fun r5 =>
            (eatWs1 r5).bind (fun r6 =>
              (eat4Digits r6).bind (fun py =>
                if py.2 = [] ∧ pd.1 ≤ daysInMonth py.1 pm.1 ∧
                    inTimestampRange py.1 pm.1 pd.1 = true
                then some (py.1, pm.1, pd.1) else none)))))))

/-- `DataCleaner._clean_and_convert_date` (cleaner.py:186-227): element-wise
fixed-format parsing over the Date column; failures become missing (NaT). -/
def clean_and_convert_date (dates : List String) :
    List (Option (Nat × Nat × Nat)) :=
  dates.map parseFixedDate

theorem parse2_decomp {mx : Nat} {cs r : List Char} {v : Nat}
    (h : parse2 mx cs = some (v, r)) :
    ∃ ds, cs = ds ++ r ∧ ds ≠ [] ∧ ds.length ≤ 2 ∧
      ∀ c ∈ ds, (charToDigit? c).isSome = true := by
  cases cs with
  | nil => simp [parse2] at h
  | cons c1 tail =>
    cases tail with
    | nil =>
      simp only [parse2] at h
      cases hd1 : charToDigit? c1 with
      | none => rw [hd1] at h; simp at h
      | some d1 =>
        rw [hd1] at h
        simp only [] at h
        split at h
        · obtain ⟨hv, hr⟩ : d1 = v ∧ ([] : List Char) = r := by
            constructor <;> [exact (Option.some.injEq _ _ ▸ congrArg Prod.fst
              (Option.some.inj h)); exact congrArg Prod.snd (Option.some.inj h)]
          refine ⟨[c1], by simp [← hr], by simp, by simp, ?_⟩
          intro c hc
          rw [List.mem_singleton.mp hc, hd1]
          rfl
        · exact absurd h (by simp)
    | cons c2 rest =>
      simp only [parse2] at h
      cases hd1 : charToDigit? c1 with
      | none => rw [hd1] at h; simp at h
      | some d1 =>
        cases hd2 : charToDigit? c2 with
        | none =>
          rw [hd1, hd2] at h
          simp only [] at h
          split at h
          · have hpair := Option.some.inj h
            refine ⟨[c1], ?_, by simp, by simp, ?_⟩
            · rw [show r = c2 :: rest from (congrArg Prod.snd hpair).symm]
              simp
            · intro c hc
              rw [List.mem_singleton.mp hc, hd1]; rfl
          · exact absurd h (by simp)
        | some d2 =>
          rw [hd1, hd2] at h
          simp only [] at h
          split at h
          · have hpair := Option.some.inj h
            refine ⟨[c1, c2], ?_, by simp, by simp, ?_⟩
            · rw [show r = rest from (congrArg Prod.snd hpair).symm]
              simp
            · intro c hc
              rcases List.mem_cons.mp hc with rfl | hc2
              · rw [hd1]; rfl
              · rw [List.mem_singleton.mp hc2, hd2]; rfl
          · split at h
            · have hpair := Option.some.inj h
              refine ⟨[c1], ?_, by simp, by simp, ?_⟩
              · rw [show r = c2 :: rest from (congrArg Prod.snd hpair).symm]
                simp
              · intro c hc
                rw [List.mem_singleton.mp hc, hd1]; rfl
            · exact absurd h (by simp)

theorem expectSlash_decomp {cs r : List Char} (h : expectSlash cs = some r) :
    cs = '/' :: r := by
  cases cs with
  | nil => simp [expectSlash] at h
  | cons c cs' =>
    simp only [expectSlash] at h
    split at h
    · rename_i hc
      rw [hc, Option.some.inj h]
    · exact absurd h (by simp)

theorem dropWs_decomp : ∀ cs : List Char,
    ∃ w, cs = w ++ dropWs cs ∧ ∀ c ∈ w, isStrptimeWs c = true := by
  intro cs
  induction cs with
  | nil => exact ⟨[], rfl, by simp⟩
  | cons c cs' ih =>
    by_cases hw : isStrptimeWs c = true
    · obtain ⟨w, hweq, hwall⟩ := ih
      refine ⟨c :: w, ?_, ?_⟩
      · rw [dropWs, if_pos hw, List.cons_append, ← hweq]
      · intro x hx
        rcases List.mem_cons.mp hx with rfl | hx2
        · exact hw
        · exact hwall x hx2
    · refine ⟨[], ?_, by simp⟩
      rw [dropWs, if_neg hw]
      rfl

theorem eatWs1_decomp {cs r : List Char} (h : eatWs1 cs = some r) :
    ∃ w, cs = w ++ r ∧ w ≠ [] ∧ ∀ c ∈ w, isStrptimeWs c = true := by
  cases cs with
  | nil => simp [eatWs1] at h
  | cons c cs' =>
    simp only [eatWs1] at h
    split at h
    · rename_i hw
      obtain ⟨w', hweq, hwall⟩ := dropWs_decomp cs'
      have hr : r = dropWs cs' := (Option.some.inj h).symm
      subst hr
      refine ⟨c :: w', by rw [List.cons_append, ← hweq], by simp, ?_⟩
      intro x hx
      rcases List.mem_cons.mp hx with rfl | hx2
      · exact hw
      · exact hwall x hx2
    · exact absurd h (by simp)

theorem eat4Digits_decomp {cs r : List Char} {y : Nat}
    (h : eat4Digits cs = some (y, r)) :
    ∃ ds, cs = ds ++ r ∧ ds.length = 4 ∧
      ∀ c ∈ ds, (charToDigit? c).isSome = true := by
  cases cs with
  | nil => simp [eat4Digits] at h
  | cons c1 t1 =>
  cases t1 with
  | nil => simp [eat4Digits] at h
  | cons c2 t2 =>
  cases t2 with
  | nil => simp [eat4Digits] at h
  | cons c3 t3 =>
  cases t3 with
  | nil => simp [eat4Digits] at h
  | cons c4 rest =>
    simp only [eat4Digits] at h
    cases hd1 : charToDigit? c1 with
    | none => rw [hd1] at h; simp at h
    | some d1 =>
    cases hd2 : charToDigit? c2 with
    | none => rw [hd1, hd2] at h; simp at h
    | some d2 =>
    cases hd3 : charToDigit? c3 with
    | none => rw [hd1, hd2, hd3] at h; simp at h
    | some d3 =>
    cases hd4 : charToDigit? c4 with
    | none => rw [hd1, hd2, hd3, hd4] at h; simp at h
    | some d4 =>
      rw [hd1, hd2, hd3, hd4] at h
      simp only [] at h
      have hpair := Option.some.inj h
      refine ⟨[c1, c2, c3, c4], ?_, by simp, ?_⟩
      · rw [show r = rest from (congrArg Prod.snd hpair).symm]
        simp
      · intro c hc
        rcases List.mem_cons.mp hc with rfl | hc
        · rw [hd1]; rfl
        rcases List.mem_cons.mp hc with rfl | hc
        · rw [hd2]; rfl
        rcases List.mem_cons.mp hc with rfl | hc
        · rw [hd3]; rfl
        rcases List.mem_cons.mp hc with rfl | hc
        · rw [hd4]; rfl
        · exact absurd hc (by simp)

/-- C5: date conversion accepts exactly the fixed `'%d/ %m/ %Y'` shape — the
space after each slash is mandatory: "15/ 01/ 2024" parses to January 15 2024,
"15/01/2024" fails and coerces to missing, and more generally every
successfully parsed string decomposes as 1-2 day digits, '/', whitespace,
1-2 month digits, '/', whitespace, exactly 4 year digits and nothing after.
The conversion is total: it maps every element, producing a value or a
missing marker, never an error. -/
theorem clean_and_convert_date_spec :
    parseFixedDate "15/ 01/ 2024" = some (2024, 1, 15) ∧
    parseFixedDate "15/01/2024" = none ∧
    (∀ s : String, ∀ y m d : Nat, parseFixedDate s = some (y, m, d) →
      ∃ dds ws1 mds ws2 yds : List Char,
        s.data = dds ++ '/' :: (ws1 ++ (mds ++ '/' :: (ws2 ++ yds))) ∧
        dds ≠ [] ∧ dds.length ≤ 2 ∧
        (∀ c ∈ dds, (charToDigit? c).isSome = true) ∧
        ws1 ≠ [] ∧ (∀ c ∈ ws1, isStrptimeWs c = true) ∧
        mds ≠ [] ∧ mds.length ≤ 2 ∧
        (∀ c ∈ mds, (charToDigit? c).isSome = true) ∧
        ws2 ≠ [] ∧ (∀ c ∈ ws2, isStrptimeWs c = true) ∧
        yds.length = 4 ∧ (∀ c ∈ yds, (charToDigit? c).isSome = true)) ∧
    (∀ dates : List String,
      (clean_and_convert_date dates).length = dates.length) := by
  refine ⟨by decide, by decide, ?_, by intro dates; simp [clean_and_convert_date]⟩
  intro s y m d h
  rw [parseFixedDate] at h
  obtain ⟨⟨d0, r1⟩, h1, h⟩ := Option.bind_eq_some.mp h
  obtain ⟨r2, h2, h⟩ := Option.bind_eq_some.mp h
  obtain ⟨r3, h3, h⟩ := Option.bind_eq_some.mp h
  obtain ⟨⟨m0, r4⟩, h4, h⟩ := Option.bind_eq_some.mp h
  obtain ⟨r5, h5, h⟩ := Option.bind_eq_some.mp h
  obtain ⟨r6, h6, h⟩ := Option.bind_eq_some.mp h
  obtain ⟨⟨y0, r7⟩, h7, h⟩ := Option.bind_eq_some.mp h
  have hcond : r7 = [] := by
    by_contra hne
    rw [if_neg (by intro hc; exact hne hc.1)] at h
    exact absurd h (by simp)
  obtain ⟨dds, hds_eq, hds_ne, hds_len, hds_dig⟩ := parse2_decomp h1
  have hsl1 := expectSlash_decomp h2
  obtain ⟨ws1, hw1_eq, hw1_ne, hw1_all⟩ := eatWs1_decomp h3
  obtain ⟨mds, hm_eq, hm_ne, hm_len, hm_dig⟩ := parse2_decomp h4
  have hsl2 := expectSlash_decomp h5
  obtain ⟨ws2, hw2_eq, hw2_ne, hw2_all⟩ := eatWs1_decomp h6
  obtain ⟨yds, hy_eq, hy_len, hy_dig⟩ := eat4Digits_decomp h7
  refine ⟨dds, ws1, mds, ws2, yds, ?_, hds_ne, hds_len, hds_dig,
    hw1_ne, hw1_all, hm_ne, hm_len, hm_dig, hw2_ne, hw2_all, hy_len, hy_dig⟩
  rw [hds_eq]
  simp only at hsl1 hsl2
  rw [hsl1, hw1_eq, hm_eq, hsl2, hw2_eq, hy_eq, hcond, List.append_nil]

theorem clean_and_convert_date_spec_witness :
    ∃ dds ws1 mds ws2 yds : List Char,
      ("15/ 01/ 2024").data = dds ++ '/' :: (ws1 ++ (mds ++ '/' :: (ws2 ++ yds))) ∧
      dds ≠ [] ∧ dds.length ≤ 2 ∧
      (∀ c ∈ dds, (charToDigit? c).isSome = true) ∧
      ws1 ≠ [] ∧ (∀ c ∈ ws1, isStrptimeWs c = true) ∧
      mds ≠ [] ∧ mds.length ≤ 2 ∧
      (∀ c ∈ mds, (charToDigit? c).isSome = true) ∧
      ws2 ≠ [] ∧ (∀ c ∈ ws2, isStrptimeWs c = true) ∧
      yds.length = 4 ∧ (∀ c ∈ yds, (charToDigit? c).isSome = true) :=
  clean_and_convert_date_spec.2.2.1 "15/ 01/ 2024" 2024 1 15 (by decide)

/-- Cell of `row` in the column named `c` (columns are identified by name, as
pandas indexes them). -/
def cellAt (cols : List String) (row : List Cell) (c : String) : Cell :=
  row.getD (List.indexOf c cols) Cell.na

/-- `DataCleaner.clean_dataframe` (cleaner.py:20-43) with
`_extract_city_from_path` (cleaner.py:260-270): drop the configured nuisance
columns, single out the (renamed) commodity column, and attach a City column
holding the file's parent-directory name.  Commodity cells are carried as
their string form — commodity names are strings in this data. -/
def clean_dataframe (config : ConsolidatorConfig) (t : RawTable)
    (parts : List String) : WideTable :=
  let keptCols := t.cols.filter (fun c => !config.columns_to_drop.contains c)
  let dateCols := keptCols.filter (fun c => c != config.original_commodity_col)
  let city := parts.getD (parts.length - 2) ""
  { dateCols := dateCols,
    rows := t.rows.map (fun row =>
      { commodity := cellToStr (cellAt t.cols row config.original_commodity_col),
        city := city,
        values := dateCols.map (fun c => cellAt t.cols row c) }) }

/-- `DataCleaner.convert_data_types` (cleaner.py:111-140) at the pipeline
level: Price cells run through `_clean_and_convert_price`; City, Commodity and
Date keep their values (the Date column's datetime reinterpretation is
modelled by `clean_and_convert_date` and is not read back by anything the
pipeline claims depend on, so the row keeps the raw label). -/
def convert_data_types (df : List LongRow) : List LongRow :=
  df.map (fun r => { r with price := cleanPriceCell r.price })

/-- One discovered Excel file: its path components and the table
`pd.read_excel` produced — `none` models a load failure
(`DataLoader.load_excel_file` logs and returns `None`, loader.py:19-35). -/
structure RawFile where
  parts : List String
  loaded : Option RawTable
deriving Repr

/-- `DataConsolidator._process_single_file` (consolidator.py:119-166): load,
validate, clean, reshape, impute, convert, filter; every failure line returns
`None` so the caller skips just this file. -/
def process_single_file (config : ConsolidatorConfig)
    (target_commodities : List String) (f : RawFile) : Option (List LongRow) :=
  match f.loaded with
  | none => none
  | some df =>
    let fname := f.parts.getD (f.parts.length - 1) ""
    if (validate_dataframe config df fname).1 = false then none
    else
      let cleaned := clean_dataframe config df f.parts
      let long := transform_to_long_format cleaned
      let long2 := handle_missing_values config.missing_value_indicators long
      let long3 := convert_data_types long2
      let filtered := filter_commodities target_commodities long3
      if filtered.isEmpty then none else some filtered

/-- `DataConsolidator.consolidate_data` (consolidator.py:81-117): process each
discovered file in order, keep the successful results, and concatenate them;
when no file yields data the result is an empty table, not an error. -/
def consolidate_data (config : ConsolidatorConfig)
    (target_commodities : List String) (files : List RawFile) : List LongRow :=
  let processed := files.filterMap (process_single_file config target_commodities)
  if processed.isEmpty then [] else processed.flatten

/-- C6: a file whose processing fails is simply skipped — removing it from the
discovered list leaves the consolidated result unchanged, so the remaining
files are still processed; a load failure or a validation failure (and, by
`process_single_file`'s last line, an empty post-filter result) makes that
file's processing fail; and with zero files, or none that yield usable data,
`consolidate_data` returns the empty table rather than raising. -/
theorem consolidate_data_spec (config : ConsolidatorConfig)
    (targets : List String) :
    (∀ xs ys : List RawFile, ∀ f : RawFile,
      process_single_file config targets f = none →
      consolidate_data config targets (xs ++ f :: ys) =
        consolidate_data config targets (xs ++ ys)) ∧
    (∀ f : RawFile, f.loaded = none →
      process_single_file config targets f = none) ∧
    (∀ f : RawFile, ∀ df : RawTable, f.loaded = some df →
      (validate_dataframe config df (f.parts.getD (f.parts.length - 1) "")).1
        = false →
      process_single_file config targets f = none) ∧
    consolidate_data config targets [] = [] ∧
    (∀ files : List RawFile,
      (∀ f ∈ files, process_single_file config targets f = none) →
      consolidate_data config targets files = []) := by
  refine ⟨?_, ?_, ?_, rfl, ?_⟩
  · intro xs ys f hf
    rw [consolidate_data, consolidate_data, List.filterMap_append,
      List.filterMap_append, List.filterMap_cons, hf]
  · intro f hf
    rw [process_single_file, hf]
  · intro f df hdf hval
    rw [process_single_file, hdf]
    simp only [hval, if_pos]
  · intro files hall
    rw [consolidate_data, List.filterMap_eq_nil_iff.mpr hall]
    rfl

/-- A discovered file whose load failed. -/
def exBadFile : RawFile :=
  { parts := ["data", "kota-pontianak", "2023.xlsx"], loaded := none }

/-- A discovered file that loads. -/
def exOkFile : RawFile :=
  { parts := ["data", "kota-pontianak", "2024.xlsx"],
    loaded := some { cols := ["Komoditas (Rp)", "Jan"],
                     rows := [[Cell.str "Beras", Cell.num 5]] } }

theorem consolidate_data_spec_witness :
    consolidate_data defaultConfig ["Beras"] ([exOkFile] ++ exBadFile :: []) =
      consolidate_data defaultConfig ["Beras"] ([exOkFile] ++ []) ∧
    consolidate_data defaultConfig ["Beras"] [] = [] := by
  have h := consolidate_data_spec defaultConfig ["Beras"]
  exact ⟨h.1 [exOkFile] [] exBadFile (h.2.1 exBadFile rfl), h.2.2.2.1⟩

structure SaveResult where
  csv : Bool
  excel : Bool
  attempted_csv : Bool
  attempted_excel : Bool
deriving DecidableEq, Repr

/-- `DataConsolidator.save_data` (consolidator.py:211-262).  An empty table is
refused up front: both formats report failure, neither write is attempted.
Otherwise the CSV write and the Excel write sit in separate try blocks, each
recording its own outcome; `csvWriteOk` and `excelWriteOk` abstract whether
the corresponding I/O call raises. -/
def save_data (df : List LongRow) (csvWriteOk excelWriteOk : Bool) :
    SaveResult :=
  if df.isEmpty then
    { csv := false, excel := false, attempted_csv := false,
      attempted_excel := false }
  else
    { csv := csvWriteOk, excel := excelWriteOk, attempted_csv := true,
      attempted_excel := true }

/-- C7: on a nonempty table both formats are attempted whatever the two
outcomes are, and the returned map records each format's own outcome; each
format's reported result does not depend on the other format's outcome (a
failure in one never prevents the other's attempt); an empty table returns
`{csv: false, excel: false}` with neither write attempted. -/
theorem save_data_spec :
    (∀ (df : List LongRow) (c e : Bool), df ≠ [] →
      (save_data df c e).attempted_csv = true ∧
      (save_data df c e).attempted_excel = true ∧
      (save_data df c e).csv = c ∧ (save_data df c e).excel = e) ∧
    (∀ (df : List LongRow) (c e e2 : Bool),
      (save_data df c e).csv = (save_data df c e2).csv ∧
      (save_data df c e).attempted_csv = (save_data df c e2).attempted_csv) ∧
    (∀ (df : List LongRow) (c c2 e : Bool),
      (save_data df c e).excel = (save_data df c2 e).excel ∧
      (save_data df c e).attempted_excel = (save_data df c2 e).attempted_excel) ∧
    (∀ c e : Bool, save_data [] c e =
      { csv := false, excel := false, attempted_csv := false,
        attempted_excel := false }) := by
  refine ⟨?_, ?_, ?_, fun c e => rfl⟩
  · intro df c e hne
    rw [save_data, if_neg (by simp [List.isEmpty_iff, hne])]
    exact ⟨rfl, rfl, rfl, rfl⟩
  · intro df c e e2
    by_cases hdf : df.isEmpty = true <;>
      simp [save_data, hdf]
  · intro df c c2 e
    by_cases hdf : df.isEmpty = true <;>
      simp [save_data, hdf]

def exSaveRow : LongRow :=
  { commodity := "Beras", city := "x", date := "Jan", price := Cell.num 5 }

theorem save_data_spec_witness :
    ((save_data [exSaveRow] false true).attempted_excel = true) ∧
    save_data ([] : List LongRow) true true =
      { csv := false, excel := false, attempted_csv := false,
        attempted_excel := false } :=
  ⟨(save_data_spec.1 [exSaveRow] false true (by simp)).2.1,
    save_data_spec.2.2.2 true true⟩

theorem filter_commodities_spec_witness :
    ((filter_commodities ["Beras"] [exSaveRow]).getD 0 default).commodity
        ∈ ["Beras"] ∧
    (filter_commodities ["Beras"] [exSaveRow]).length ≤ [exSaveRow].length :=
  ⟨(filter_commodities_spec ["Beras"] [exSaveRow]).1 _ (by decide),
    (filter_commodities_spec ["Beras"] [exSaveRow]).2.1⟩
